import Mathlib

set_option autoImplicit false

/-!
Verification of the Laura chess engine's search subsystem against its
natural-language specification.  The Rust sources are shallowly embedded:
machine integers become `Nat`/`Int` with explicit wrapping where the source
casts, fallible operations return `Option`, and the stateful search threads
its state explicitly.  Moves are the raw 16-bit packed values of
`laura_core::Move` (`Move::null() = 0`); boards, move generation and the
evaluator are collaborators of the search core and are abstracted behind an
oracle structure, exactly as the spec treats them.
-/

namespace Laura

/-! ## Engine configuration constants (src/laura_engine/src/config.rs) -/

def INFINITY : Int := 32001
def MATE : Int := 32000
def MAX_PLY : Nat := 128
def KILLER_SLOTS : Nat := 2
def TTMATE : Int := 30000
def MEGABYTE : Nat := 1024 * 1024
def ENTRIES_PER_CELL : Nat := 3
def AGE_OFFSET : Nat := 3
def BOUND_OFFSET : Nat := 1
def BOUNDTYPE_MASK : Nat := 0x6
def PV_NODE_MASK : Nat := 0x1
def DATA_MASK : Nat := 0xFFFFFFFFFFFFFFFF
def KEY_MASK : Nat := 0xFFFF
def KEY_WRAPPER_MASK : Nat := 0xFFFF
def MOVE_OVERHEAD : Nat := 50
def MINIMUM_TIME : Nat := 30
def OPTIMAL_TIME_BASE : Nat := 65
def INCREMENT_TIME_BASE : Nat := 85
def DEFAULT_MOVESTOGO : Nat := 40

/-- `size_of::<Cell>()`: three `AtomicU64` plus three `AtomicU16`, padded to the
`repr(C, align(32))` alignment (the repository's `test_cell` asserts 32). -/
def CELL_SIZE : Nat := 32

/-! ## 16-bit two's complement helpers

`i16ofInt` is the Rust `as i16` wrapping cast; `toBits16`/`ofBits16` convert
between an `i16` value and its 16-bit two's-complement bit pattern as stored
in memory. -/

def i16ofInt (x : Int) : Int := (x + 32768) % 65536 - 32768

def toBits16 (x : Int) : Nat := (x % 65536).toNat

def ofBits16 (n : Nat) : Int := if n < 32768 then (n : Int) else (n : Int) - 65536

lemma i16ofInt_range (x : Int) : -32768 ≤ i16ofInt x ∧ i16ofInt x < 32768 := by
  unfold i16ofInt; omega

lemma i16ofInt_eq_self {x : Int} (h1 : -32768 ≤ x) (h2 : x < 32768) : i16ofInt x = x := by
  unfold i16ofInt; omega

lemma ofBits16_toBits16 {x : Int} (h1 : -32768 ≤ x) (h2 : x < 32768) :
    ofBits16 (toBits16 x) = x := by
  unfold ofBits16 toBits16; omega

lemma toBits16_lt (x : Int) : toBits16 x < 65536 := by
  unfold toBits16; omega

/-! ## Transposition table (src/laura_engine/src/transposition.rs) -/

/-- `fn normalize_score(score: i32, ply: i32) -> i16`: mate scores are moved
away from the root before storage; the `as i16` cast applies on return. -/
def normalize_score (score ply : Int) : Int :=
  if TTMATE ≤ score then i16ofInt (score + ply)
  else if score ≤ -TTMATE then i16ofInt (score - ply)
  else i16ofInt score

/-- `fn unnormalize_score(score: i32, ply: i32) -> i32`. -/
def unnormalize_score (score ply : Int) : Int :=
  if TTMATE ≤ score then score - ply
  else if score ≤ -TTMATE then score + ply
  else score

inductive BoundType where
  | none
  | exact
  | lowerBound
  | upperBound
  deriving DecidableEq, Repr

def BoundType.toNat : BoundType → Nat
  | .none => 0
  | .exact => 1
  | .lowerBound => 2
  | .upperBound => 3

/-- Decoding of the 2-bit bound field (the `unreachable!` arm of the source
match cannot fire: the field is masked to two bits). -/
def boundOfNat (n : Nat) : BoundType :=
  match n with
  | 0 => .none
  | 1 => .exact
  | 2 => .lowerBound
  | _ => .upperBound

/-- `PackedData::new(age, bound, pv_node)`:
`(age << AGE_OFFSET) | ((bound as u8) << BOUND_OFFSET) | pv_node as u8`,
computed in `u8` (the age shift wraps mod 256). -/
def packedDataNew (age : Nat) (bound : BoundType) (pv : Bool) : Nat :=
  ((age <<< AGE_OFFSET) % 256) ||| (bound.toNat <<< BOUND_OFFSET) ||| (if pv then 1 else 0)

/-- `PackedData::age`: `self.0 >> AGE_OFFSET`. -/
def dataAge (d : Nat) : Nat := d >>> AGE_OFFSET

/-- `PackedData::bound`: `(self.0 & BOUNDTYPE_MASK) >> BOUND_OFFSET`. -/
def dataBound (d : Nat) : BoundType := boundOfNat ((d &&& BOUNDTYPE_MASK) >>> BOUND_OFFSET)

/-- `PackedData::pv_node`: `self.0 & PV_NODE_MASK != 0`. -/
def dataPvNode (d : Nat) : Bool := (d &&& PV_NODE_MASK) != 0

lemma BoundType.toNat_lt (b : BoundType) : b.toNat < 4 := by cases b <;> decide

/-- The three bit fields of a metadata byte occupy disjoint positions. -/
lemma packed_bits : ∀ x < 32, ∀ k < 4, ∀ j < 2,
    ((x * 8) ||| (k * 2) ||| j = x * 8 + k * 2 + j)
    ∧ (((x * 8 + k * 2 + j) &&& 6) >>> 1 = k)
    ∧ ((x * 8 + k * 2 + j) &&& 1) = j := by decide

lemma pvBit_lt (pv : Bool) : (if pv then 1 else 0) < 2 := by cases pv <;> decide

lemma packedDataNew_eq (age : Nat) (b : BoundType) (pv : Bool) :
    packedDataNew age b pv = age % 32 * 8 + b.toNat * 2 + (if pv then 1 else 0) := by
  unfold packedDataNew AGE_OFFSET BOUND_OFFSET
  rw [Nat.shiftLeft_eq, Nat.shiftLeft_eq]
  norm_num
  have h8 : age * 8 % 256 = age % 32 * 8 := by omega
  rw [h8]
  exact (packed_bits (age % 32) (by omega) b.toNat b.toNat_lt _ (pvBit_lt pv)).1

lemma dataBound_packedDataNew (age : Nat) (b : BoundType) (pv : Bool) :
    dataBound (packedDataNew age b pv) = b := by
  unfold dataBound BOUNDTYPE_MASK BOUND_OFFSET
  rw [packedDataNew_eq,
    (packed_bits (age % 32) (by omega) b.toNat b.toNat_lt _ (pvBit_lt pv)).2.1]
  cases b <;> rfl

lemma dataPvNode_packedDataNew (age : Nat) (b : BoundType) (pv : Bool) :
    dataPvNode (packedDataNew age b pv) = pv := by
  unfold dataPvNode PV_NODE_MASK
  rw [packedDataNew_eq,
    (packed_bits (age % 32) (by omega) b.toNat b.toNat_lt _ (pvBit_lt pv)).2.2]
  cases pv <;> rfl

lemma packedDataNew_lt (age : Nat) (b : BoundType) (pv : Bool) :
    packedDataNew age b pv < 256 := by
  rw [packedDataNew_eq]
  have := b.toNat_lt
  have := pvBit_lt pv
  omega

/-- The 10 meaningful bytes of a `#[repr(C, align(8))] Entry`.  Fields carry
the values of the Rust `u16`/`i16`/`u8` fields. -/
structure Entry where
  key : Nat
  mv : Nat
  score : Int
  evaluation : Int
  depth : Nat
  data : Nat
  deriving DecidableEq, Repr

def zeroEntry : Entry := ⟨0, 0, 0, 0, 0, 0⟩

/-- The `Packed128` union view of an entry: `repr(C)` little-endian layout
with `key` at byte offset 0, `mv` at 2, `score` at 4, `evaluation` at 6,
`depth` at 8 and the packed metadata byte at 9. -/
def entryToRaw (e : Entry) : Nat :=
  e.key + e.mv * 2 ^ 16 + toBits16 e.score * 2 ^ 32 + toBits16 e.evaluation * 2 ^ 48
    + e.depth * 2 ^ 64 + e.data * 2 ^ 72

/-- Reading an `Entry` back out of a 128-bit image. -/
def rawToEntry (raw : Nat) : Entry :=
  { key := raw % 2 ^ 16
    mv := raw / 2 ^ 16 % 2 ^ 16
    score := ofBits16 (raw / 2 ^ 32 % 2 ^ 16)
    evaluation := ofBits16 (raw / 2 ^ 48 % 2 ^ 16)
    depth := raw / 2 ^ 64 % 2 ^ 8
    data := raw / 2 ^ 72 % 2 ^ 8 }

/-- A `Cell`: three `(data: AtomicU64, key: AtomicU16)` pairs. -/
structure Cell where
  d0 : Nat
  d1 : Nat
  d2 : Nat
  k0 : Nat
  k1 : Nat
  k2 : Nat
  deriving DecidableEq, Repr

def zeroCell : Cell := ⟨0, 0, 0, 0, 0, 0⟩

/-- `Cell::load`: recombine `(u128::from(key) << 64) | u128::from(data)` and
reinterpret as an `Entry`. -/
def cellLoad (c : Cell) (i : Fin 3) : Entry :=
  let dk : Nat × Nat :=
    match i with
    | 0 => (c.d0, c.k0)
    | 1 => (c.d1, c.k1)
    | 2 => (c.d2, c.k2)
  rawToEntry (dk.2 * 2 ^ 64 + dk.1)

/-- `Cell::store`: split the 128-bit image into `raw & DATA_MASK` and
`(raw >> 64) & KEY_MASK` and store both halves. -/
def cellStore (c : Cell) (i : Fin 3) (e : Entry) : Cell :=
  let raw := entryToRaw e
  let data := raw &&& DATA_MASK
  let key := (raw >>> 64) &&& KEY_MASK
  match i with
  | 0 => { c with d0 := data, k0 := key }
  | 1 => { c with d1 := data, k1 := key }
  | 2 => { c with d2 := data, k2 := key }

/-- Bounds under which an `Entry` is a valid set of field values (the Rust
field types enforce these by construction). -/
def Entry.wf (e : Entry) : Prop :=
  e.key < 2 ^ 16 ∧ e.mv < 2 ^ 16 ∧ (-32768 ≤ e.score ∧ e.score < 32768) ∧
    (-32768 ≤ e.evaluation ∧ e.evaluation < 32768) ∧ e.depth < 2 ^ 8 ∧ e.data < 2 ^ 8

lemma rawToEntry_fields (key mv : Nat) (score evaluation : Int) (depth data : Nat)
    (h1 : key < 2 ^ 16) (h2 : mv < 2 ^ 16)
    (h3 : -32768 ≤ score) (h3' : score < 32768)
    (h4 : -32768 ≤ evaluation) (h4' : evaluation < 32768)
    (h5 : depth < 2 ^ 8) (h6 : data < 2 ^ 8) :
    rawToEntry (entryToRaw ⟨key, mv, score, evaluation, depth, data⟩)
      = ⟨key, mv, score, evaluation, depth, data⟩ := by
  have hs := toBits16_lt score
  have he := toBits16_lt evaluation
  simp only [rawToEntry, entryToRaw, Entry.mk.injEq]
  refine ⟨by omega, by omega, ?_, ?_, by omega, by omega⟩
  · have hq : (key + mv * 2 ^ 16 + toBits16 score * 2 ^ 32 + toBits16 evaluation * 2 ^ 48
        + depth * 2 ^ 64 + data * 2 ^ 72) / 2 ^ 32 % 2 ^ 16 = toBits16 score := by omega
    rw [hq, ofBits16_toBits16 h3 h3']
  · have hq : (key + mv * 2 ^ 16 + toBits16 score * 2 ^ 32 + toBits16 evaluation * 2 ^ 48
        + depth * 2 ^ 64 + data * 2 ^ 72) / 2 ^ 48 % 2 ^ 16 = toBits16 evaluation := by omega
    rw [hq, ofBits16_toBits16 h4 h4']

lemma rawToEntry_entryToRaw {e : Entry} (h : e.wf) : rawToEntry (entryToRaw e) = e := by
  obtain ⟨key, mv, score, evaluation, depth, data⟩ := e
  simp only [Entry.wf] at h
  exact rawToEntry_fields key mv score evaluation depth data
    h.1 h.2.1 h.2.2.1.1 h.2.2.1.2 h.2.2.2.1.1 h.2.2.2.1.2 h.2.2.2.2.1 h.2.2.2.2.2

lemma and_mask_eq_mod (k : Nat) : k &&& 0xFFFFFFFFFFFFFFFF = k % 2 ^ 64 := by
  have := Nat.and_pow_two_sub_one_eq_mod k 64
  norm_num at this ⊢; exact this

lemma and_mask16_eq_mod (k : Nat) : k &&& 0xFFFF = k % 2 ^ 16 := by
  have := Nat.and_pow_two_sub_one_eq_mod k 16
  norm_num at this ⊢; exact this

lemma cellLoad_cellStore (c : Cell) (i : Fin 3) {e : Entry} (h : e.wf) :
    cellLoad (cellStore c i e) i = e := by
  have hraw : entryToRaw e < 2 ^ 80 := by
    obtain ⟨h1, h2, _, _, h5, h6⟩ := h
    have hs := toBits16_lt e.score
    have he := toBits16_lt e.evaluation
    unfold entryToRaw; omega
  have hdata : entryToRaw e &&& DATA_MASK = entryToRaw e % 2 ^ 64 :=
    and_mask_eq_mod _
  have hkey : (entryToRaw e >>> 64) &&& KEY_MASK = entryToRaw e / 2 ^ 64 % 2 ^ 16 := by
    rw [Nat.shiftRight_eq_div_pow]; exact and_mask16_eq_mod _
  have hsplit : entryToRaw e / 2 ^ 64 % 2 ^ 16 * 2 ^ 64 + entryToRaw e % 2 ^ 64
      = entryToRaw e := by omega
  fin_cases i <;>
    simp only [cellStore, cellLoad] <;>
    rw [hdata, hkey, hsplit] <;> exact rawToEntry_entryToRaw h

/-- `EntryHit`: the unpacked result of a successful probe. -/
structure EntryHit where
  mv : Nat
  score : Int
  evaluation : Int
  depth : Nat
  bound : BoundType
  pvNode : Bool
  deriving DecidableEq, Repr

/-- The shared table: a vector of cells plus the atomic age counter. -/
structure TT where
  cells : List Cell
  age : Nat
  deriving DecidableEq, Repr

/-- `TranspositionTable::default()`: empty vector, age 0. -/
def ttDefault : TT := ⟨[], 0⟩

/-- An all-zero table of `len` cells, as produced by `resize`/`clear`. -/
def zeroTT (len : Nat) : TT := ⟨List.replicate len zeroCell, 0⟩

/-- `resize(megabytes)`: `megabytes * MEGABYTE / size_of::<Cell>()` zeroed
cells replace the previous vector (age is untouched). -/
def resizeLen (megabytes : Nat) : Nat := megabytes * MEGABYTE / CELL_SIZE

def TT.resize (t : TT) (megabytes : Nat) : TT :=
  { t with cells := List.replicate (resizeLen megabytes) zeroCell }

/-- `fn index(&self, key: u64) -> usize`: `((key as u128 * len as u128) >> 64)`. -/
def ttIndex (t : TT) (key : Nat) : Nat := (key * t.cells.length) >>> 64

/-- `fn wrap_key(key: u64) -> u16`: `(key & KEY_WRAPPER_MASK) as u16`. -/
def wrapKey (key : Nat) : Nat := key &&& KEY_WRAPPER_MASK

lemma ttIndex_eq (t : TT) (key : Nat) : ttIndex t key = key * t.cells.length / 2 ^ 64 := by
  unfold ttIndex; rw [Nat.shiftRight_eq_div_pow]

lemma wrapKey_eq (key : Nat) : wrapKey key = key % 2 ^ 16 := and_mask16_eq_mod key

lemma wrapKey_lt (key : Nat) : wrapKey key < 2 ^ 16 := by
  rw [wrapKey_eq]; omega

lemma ttIndex_lt {t : TT} {key : Nat} (hkey : key < 2 ^ 64) (hL : 1 ≤ t.cells.length) :
    ttIndex t key < t.cells.length := by
  rw [ttIndex_eq, Nat.div_lt_iff_lt_mul (by norm_num : (0 : Nat) < 2 ^ 64)]
  calc key * t.cells.length < 2 ^ 64 * t.cells.length :=
        Nat.mul_lt_mul_of_pos_right hkey (by omega)
    _ = t.cells.length * 2 ^ 64 := Nat.mul_comm _ _

def hitOfEntry (e : Entry) (ply : Nat) : EntryHit :=
  { mv := e.mv
    score := unnormalize_score e.score (ply : Int)
    evaluation := e.evaluation
    depth := e.depth
    bound := dataBound e.data
    pvNode := dataPvNode e.data }

/-- The scan of the three slots inside `probe`: return the first slot whose
16-bit tag equals the wrapped key. -/
def probeSlots (cell : Cell) (wkey ply : Nat) : Option EntryHit :=
  if (cellLoad cell 0).key = wkey then some (hitOfEntry (cellLoad cell 0) ply)
  else if (cellLoad cell 1).key = wkey then some (hitOfEntry (cellLoad cell 1) ply)
  else if (cellLoad cell 2).key = wkey then some (hitOfEntry (cellLoad cell 2) ply)
  else none

/-- `TranspositionTable::probe`.  The source reads the cell with
`get_unchecked`; an out-of-range index is undefined behaviour and is modelled
as a miss (claim C9 shows the index is in range whenever the table is
non-empty). -/
def TT.probe (t : TT) (key : Nat) (ply : Nat) : Option EntryHit :=
  match t.cells.get? (ttIndex t key) with
  | Option.none => Option.none
  | some cell => probeSlots cell (wrapKey key) ply

/-- The slot-selection loop at the head of `insert`: start from slot 0 and
take the first slot whose tag is empty (0) or equal to the wrapped key; when
no slot qualifies both the entry and the store index stay at slot 0. -/
def chooseSlot (cell : Cell) (wkey : Nat) : Entry × Fin 3 :=
  let e0 := cellLoad cell 0
  if e0.key = 0 ∨ e0.key = wkey then (e0, 0)
  else
    let e1 := cellLoad cell 1
    if e1.key = 0 ∨ e1.key = wkey then (e1, 1)
    else
      let e2 := cellLoad cell 2
      if e2.key = 0 ∨ e2.key = wkey then (e2, 2)
      else (e0, 0)

/-- `TranspositionTable::insert`.  Mirrors the source: pick the slot with
`chooseSlot`; preserve the stored move when the incoming one is null and the
tags match; overwrite only under the replacement condition.  The
out-of-range cell access (UB in the source) is modelled as a no-op. -/
def TT.insert (t : TT) (key : Nat) (bestMove : Nat) (score evaluation : Int)
    (depth : Nat) (bound : BoundType) (pvNode : Bool) (ply : Nat) : TT :=
  let index := ttIndex t key
  let wkey := wrapKey key
  match t.cells.get? index with
  | Option.none => t
  | some cell =>
    let es := chooseSlot cell wkey
    let entry := es.1
    let storeIndex := es.2
    let bestMove := if bestMove = 0 ∧ entry.key = wkey then entry.mv else bestMove
    if entry.key ≠ wkey ∨ (bound = BoundType.exact ∧ dataBound entry.data ≠ BoundType.exact)
        ∨ depth + 4 + 2 * (if pvNode then 1 else 0) > entry.depth then
      let newEntry : Entry :=
        { key := wkey
          mv := bestMove
          score := normalize_score score (ply : Int)
          evaluation := i16ofInt evaluation
          depth := depth % 2 ^ 8
          data := packedDataNew t.age bound pvNode }
      { t with cells := t.cells.set index (cellStore cell storeIndex newEntry) }
    else t

/-! ### Helper lemmas about zeroed tables -/

lemma cellLoad_zeroCell (i : Fin 3) : cellLoad zeroCell i = zeroEntry := by
  fin_cases i <;> decide

lemma zeroTT_length (L : Nat) : (zeroTT L).cells.length = L := by
  simp [zeroTT]

lemma zeroTT_get {L i : Nat} (h : i < L) : (zeroTT L).cells.get? i = some zeroCell := by
  simp [zeroTT, List.get?_eq_getElem?, List.getElem?_replicate, h]

lemma chooseSlot_zeroCell (wkey : Nat) : chooseSlot zeroCell wkey = (zeroEntry, 0) := by
  unfold chooseSlot
  simp [cellLoad_zeroCell, zeroEntry]

lemma normalize_score_range (s p : Int) :
    -32768 ≤ normalize_score s p ∧ normalize_score s p < 32768 := by
  unfold normalize_score
  split_ifs <;> exact i16ofInt_range _

lemma unnormalize_normalize {s : Int} {ply : Nat} (h1 : -32001 ≤ s) (h2 : s ≤ 32001)
    (hply : ply ≤ 127) :
    unnormalize_score (normalize_score s (ply : Int)) (ply : Int) = s := by
  unfold normalize_score unnormalize_score i16ofInt TTMATE
  split_ifs <;> omega

lemma unnormalize_zero (p : Int) : unnormalize_score 0 p = 0 := by
  unfold unnormalize_score TTMATE
  split_ifs <;> omega

/-- Inserting into a table whose addressed cell is still zeroed always writes
the new entry into slot 0 of that cell. -/
lemma insert_target_zero (t : TT) (key mv : Nat) (score evaluation : Int)
    (depth : Nat) (bound : BoundType) (pv : Bool) (ply : Nat)
    (hget : t.cells.get? (ttIndex t key) = some zeroCell) :
    t.insert key mv score evaluation depth bound pv ply
      = { t with cells := (t.cells.set (ttIndex t key)
          (cellStore zeroCell 0
            ⟨wrapKey key, mv, normalize_score score (ply : Int), i16ofInt evaluation,
              depth % 2 ^ 8, packedDataNew t.age bound pv⟩)) } := by
  unfold TT.insert
  simp only [hget, chooseSlot_zeroCell, zeroEntry]
  have hmv : (if mv = 0 ∧ 0 = wrapKey key then 0 else mv) = mv := by
    split_ifs with h
    · omega
    · rfl
  have hcond : (0 : Nat) ≠ wrapKey key
      ∨ (bound = BoundType.exact ∧ dataBound 0 ≠ BoundType.exact)
      ∨ depth + 4 + 2 * (if pv then 1 else 0) > 0 := by
    right; right
    cases pv <;> simp
  rw [hmv, if_pos hcond]

lemma get?_set_self {α : Type} {l : List α} {i : Nat} (c : α) (h : i < l.length) :
    (l.set i c).get? i = some c := by
  simp [List.get?_eq_getElem?, List.getElem?_set_self', List.getElem?_eq_getElem, h]

/-- Probing right after the addressed cell has been replaced scans the new
cell. -/
lemma probe_set (t : TT) (key ply : Nat) (c : Cell)
    (hidx : ttIndex t key < t.cells.length) :
    ({ t with cells := (t.cells.set (ttIndex t key) c) } : TT).probe key ply
      = probeSlots c (wrapKey key) ply := by
  have hlen : (t.cells.set (ttIndex t key) c).length = t.cells.length :=
    List.length_set t.cells _ c
  have hidx2 : ttIndex { t with cells := (t.cells.set (ttIndex t key) c) } key
      = ttIndex t key := by
    unfold ttIndex
    rw [List.length_set]
  unfold TT.probe
  rw [hidx2]
  simp only [get?_set_self c hidx]

/-- C1: TT round-trip.  For every 64-bit key, 16-bit move, score in
`[-INFINITY, INFINITY]`, depth in `[0, 255]`, bound kind, pv flag and ply in
`[0, MAX_PLY)`, inserting into a freshly zero-initialized table of at least
one cell and probing with the same key and ply returns a hit whose move,
bound, pv flag and depth equal the inserted ones and whose score equals the
inserted score exactly (the mate-distance normalization applied on insert is
inverted exactly on probe). -/
theorem tt_insert_probe_roundtrip (L key mv : Nat) (score evaluation : Int)
    (depth : Nat) (bound : BoundType) (pv : Bool) (ply : Nat)
    (hL : 1 ≤ L) (hkey : key < 2 ^ 64) (hmv : mv < 2 ^ 16)
    (hs1 : -INFINITY ≤ score) (hs2 : score ≤ INFINITY)
    (hd : depth ≤ 255) (hply : ply < MAX_PLY) :
    ((zeroTT L).insert key mv score evaluation depth bound pv ply).probe key ply
      = some ⟨mv, score, i16ofInt evaluation, depth, bound, pv⟩ := by
  have hlen : (zeroTT L).cells.length = L := zeroTT_length L
  have hidx : ttIndex (zeroTT L) key < (zeroTT L).cells.length :=
    ttIndex_lt hkey (by rw [hlen]; omega)
  have hget : (zeroTT L).cells.get? (ttIndex (zeroTT L) key) = some zeroCell :=
    zeroTT_get (lt_of_lt_of_eq hidx hlen)
  rw [insert_target_zero _ _ _ _ _ _ _ _ _ hget, probe_set _ _ _ _ hidx]
  have hwf : Entry.wf ⟨wrapKey key, mv, normalize_score score (ply : Int),
      i16ofInt evaluation, depth % 2 ^ 8, packedDataNew (zeroTT L).age bound pv⟩ := by
    simp only [Entry.wf]
    exact ⟨wrapKey_lt key, hmv, normalize_score_range _ _, i16ofInt_range _,
      by omega, packedDataNew_lt _ _ _⟩
  unfold probeSlots
  rw [cellLoad_cellStore _ _ hwf]
  rw [if_pos rfl]
  unfold hitOfEntry
  unfold INFINITY at hs1 hs2
  unfold MAX_PLY at hply
  have hsc : unnormalize_score (normalize_score score (ply : Int)) (ply : Int) = score :=
    unnormalize_normalize (by omega) (by omega) (by omega)
  simp only [hsc, dataBound_packedDataNew, dataPvNode_packedDataNew]
  have hdep : depth % 2 ^ 8 = depth := by omega
  rw [hdep]

/-- Concrete instance of C1: insert then probe a mate-range score on a
one-cell zero table and read the same data back. -/
theorem tt_insert_probe_roundtrip_witness :
    ((zeroTT 1).insert 123456789 777 31990 (-5) 10 BoundType.lowerBound true 4).probe
        123456789 4
      = some ⟨777, 31990, -5, 10, BoundType.lowerBound, true⟩ := by
  have h := tt_insert_probe_roundtrip 1 123456789 777 31990 (-5) 10
    BoundType.lowerBound true 4 (by norm_num) (by norm_num) (by norm_num)
    (by norm_num [INFINITY]) (by norm_num [INFINITY]) (by norm_num)
    (by norm_num [MAX_PLY])
  have he : i16ofInt (-5) = -5 := by norm_num [i16ofInt]
  rw [he] at h
  exact h

/-! ### C2: probing a zero-initialized table -/

lemma hitOfEntry_zero (p : Nat) : hitOfEntry zeroEntry p = ⟨0, 0, 0, 0, BoundType.none, false⟩ := by
  unfold hitOfEntry zeroEntry
  dsimp only
  rw [unnormalize_zero]
  rfl

/-- C2 (amended): every slot of a zero-initialized table decodes to
`bound() = None`, and `probe` misses for every key whose low 16 bits are
nonzero; for a key whose low 16 bits are zero, however, `probe` returns a
hit on the all-zero entry (null move, score 0, depth 0, bound `None`). -/
theorem zero_tt_probe_no_hit (L key ply : Nat) (hkey : key < 2 ^ 64) :
    (∀ c ∈ (zeroTT L).cells, ∀ i : Fin 3, dataBound (cellLoad c i).data = BoundType.none)
    ∧ (wrapKey key ≠ 0 → (zeroTT L).probe key ply = Option.none)
    ∧ (wrapKey key = 0 → 1 ≤ L →
        (zeroTT L).probe key ply = some ⟨0, 0, 0, 0, BoundType.none, false⟩) := by
  refine ⟨?_, ?_, ?_⟩
  · intro c hc i
    have hcz : c = zeroCell := List.eq_of_mem_replicate hc
    subst hcz
    rw [cellLoad_zeroCell]
    rfl
  · intro hw
    unfold TT.probe
    cases hgo : (zeroTT L).cells.get? (ttIndex (zeroTT L) key) with
    | none => rfl
    | some c =>
      have hcz : c = zeroCell := List.eq_of_mem_replicate (List.get?_mem hgo)
      subst hcz
      have hne : ¬ (zeroEntry.key = wrapKey key) := fun h => hw h.symm
      dsimp only
      unfold probeSlots
      rw [cellLoad_zeroCell, cellLoad_zeroCell, cellLoad_zeroCell,
        if_neg hne, if_neg hne, if_neg hne]
  · intro hw hL
    have hlen : (zeroTT L).cells.length = L := zeroTT_length L
    have hidx : ttIndex (zeroTT L) key < (zeroTT L).cells.length :=
      ttIndex_lt hkey (by rw [hlen]; omega)
    unfold TT.probe
    rw [zeroTT_get (lt_of_lt_of_eq hidx hlen)]
    dsimp only
    unfold probeSlots
    rw [cellLoad_zeroCell, if_pos (show zeroEntry.key = wrapKey key from hw.symm),
      hitOfEntry_zero]

/-- Probing any nonempty zeroed table with key 0 hits the all-zero entry. -/
lemma probe_zero_hit (L ply : Nat) (hL : 1 ≤ L) :
    (zeroTT L).probe 0 ply = some ⟨0, 0, 0, 0, BoundType.none, false⟩ := by
  have hlen : (zeroTT L).cells.length = L := zeroTT_length L
  have hidx : ttIndex (zeroTT L) 0 < (zeroTT L).cells.length :=
    ttIndex_lt (by norm_num) (by rw [hlen]; omega)
  unfold TT.probe
  rw [zeroTT_get (lt_of_lt_of_eq hidx hlen)]
  dsimp only
  unfold probeSlots
  rw [cellLoad_zeroCell,
    if_pos (show zeroEntry.key = wrapKey 0 by rw [wrapKey_eq]; rfl), hitOfEntry_zero]

/-- Counterexample to C2 as stated: on the freshly resized (1 MB, all-zero)
table, probing with key 0 — whose low 16 bits coincide with the empty tag —
returns a hit, not `None`. -/
theorem zero_tt_probe_counterexample : (ttDefault.resize 1).probe 0 0 ≠ Option.none := by
  have h : ttDefault.resize 1 = zeroTT (resizeLen 1) := rfl
  have hL : 1 ≤ resizeLen 1 := by
    unfold resizeLen MEGABYTE CELL_SIZE
    norm_num
  rw [h, probe_zero_hit (resizeLen 1) 0 hL]
  exact fun hcon => Option.noConfusion hcon

/-- Concrete instance of the amended C2 on a one-cell zero table. -/
theorem zero_tt_probe_no_hit_witness :
    (5 : Nat) < 2 ^ 64
    ∧ ((∀ c ∈ (zeroTT 1).cells, ∀ i : Fin 3, dataBound (cellLoad c i).data = BoundType.none)
      ∧ (wrapKey 5 ≠ 0 → (zeroTT 1).probe 5 0 = Option.none)
      ∧ (wrapKey 5 = 0 → 1 ≤ 1 →
          (zeroTT 1).probe 5 0 = some ⟨0, 0, 0, 0, BoundType.none, false⟩)) :=
  ⟨by norm_num, zero_tt_probe_no_hit 1 5 0 (by norm_num)⟩

/-! ### C3: the insert slot choice and replacement policy -/

/-- The spec-side slot choice: the first position of the cell whose tag is 0
or equals the wrapped key, and position 0 when no position qualifies. -/
def firstMatchSlot (cell : Cell) (wkey : Nat) : Fin 3 :=
  (([0, 1, 2] : List (Fin 3)).find?
    (fun i => (cellLoad cell i).key == 0 || (cellLoad cell i).key == wkey)).getD 0

lemma chooseSlot_eq_firstMatch (cell : Cell) (wkey : Nat) :
    chooseSlot cell wkey
      = (cellLoad cell (firstMatchSlot cell wkey), firstMatchSlot cell wkey) := by
  unfold chooseSlot firstMatchSlot
  by_cases h0 : (cellLoad cell 0).key = 0 ∨ (cellLoad cell 0).key = wkey
  · rw [if_pos h0, List.find?_cons_of_pos _ (by simpa using h0)]
    rfl
  · rw [if_neg h0, List.find?_cons_of_neg _ (by simpa using h0)]
    by_cases h1 : (cellLoad cell 1).key = 0 ∨ (cellLoad cell 1).key = wkey
    · rw [if_pos h1, List.find?_cons_of_pos _ (by simpa using h1)]
      rfl
    · rw [if_neg h1, List.find?_cons_of_neg _ (by simpa using h1)]
      by_cases h2 : (cellLoad cell 2).key = 0 ∨ (cellLoad cell 2).key = wkey
      · rw [if_pos h2, List.find?_cons_of_pos _ (by simpa using h2)]
        rfl
      · rw [if_neg h2, List.find?_cons_of_neg _ (by simpa using h2)]
        rfl

/-- C3: `insert` targets the first entry of the indexed cell whose 16-bit
tag is 0 or equals the key's tag (position 0 if none qualifies); an incoming
null move is replaced by the stored move when the chosen entry's tag
matches; and the entry is overwritten if and only if the stored tag differs,
or the new bound is Exact while the stored one is not, or
`depth + 4 + 2·pv` exceeds the stored depth. -/
theorem tt_insert_replacement_policy (t : TT) (key mv : Nat) (score evaluation : Int)
    (depth : Nat) (bound : BoundType) (pv : Bool) (ply : Nat) (cell : Cell)
    (hget : t.cells.get? (ttIndex t key) = some cell) :
    t.insert key mv score evaluation depth bound pv ply
      = (if (cellLoad cell (firstMatchSlot cell (wrapKey key))).key ≠ wrapKey key
            ∨ (bound = BoundType.exact
                ∧ dataBound (cellLoad cell (firstMatchSlot cell (wrapKey key))).data
                    ≠ BoundType.exact)
            ∨ depth + 4 + 2 * (if pv then 1 else 0)
                > (cellLoad cell (firstMatchSlot cell (wrapKey key))).depth then
          { t with cells := (t.cells.set (ttIndex t key)
              (cellStore cell (firstMatchSlot cell (wrapKey key))
                ⟨wrapKey key,
                  (if mv = 0 ∧ (cellLoad cell (firstMatchSlot cell (wrapKey key))).key
                        = wrapKey key
                    then (cellLoad cell (firstMatchSlot cell (wrapKey key))).mv else mv),
                  normalize_score score (ply : Int), i16ofInt evaluation, depth % 2 ^ 8,
                  packedDataNew t.age bound pv⟩)) }
        else t) := by
  unfold TT.insert
  simp only [hget, chooseSlot_eq_firstMatch]

/-- Concrete instance of C3 on a zeroed one-cell table. -/
theorem tt_insert_replacement_policy_witness :
    (zeroTT 1).cells.get? (ttIndex (zeroTT 1) 7) = some zeroCell
    ∧ (zeroTT 1).insert 7 5 10 0 3 BoundType.exact true 0
      = (if (cellLoad zeroCell (firstMatchSlot zeroCell (wrapKey 7))).key ≠ wrapKey 7
            ∨ (BoundType.exact = BoundType.exact
                ∧ dataBound (cellLoad zeroCell (firstMatchSlot zeroCell (wrapKey 7))).data
                    ≠ BoundType.exact)
            ∨ 3 + 4 + 2 * (if true then 1 else 0)
                > (cellLoad zeroCell (firstMatchSlot zeroCell (wrapKey 7))).depth then
          { zeroTT 1 with cells := ((zeroTT 1).cells.set (ttIndex (zeroTT 1) 7)
              (cellStore zeroCell (firstMatchSlot zeroCell (wrapKey 7))
                ⟨wrapKey 7,
                  (if 5 = 0 ∧ (cellLoad zeroCell (firstMatchSlot zeroCell (wrapKey 7))).key
                        = wrapKey 7
                    then (cellLoad zeroCell (firstMatchSlot zeroCell (wrapKey 7))).mv else 5),
                  normalize_score 10 ((0 : Nat) : Int), i16ofInt 0, 3 % 2 ^ 8,
                  packedDataNew (zeroTT 1).age BoundType.exact true⟩)) }
        else zeroTT 1) :=
  ⟨by decide, tt_insert_replacement_policy (zeroTT 1) 7 5 10 0 3
    BoundType.exact true 0 zeroCell (by decide)⟩

/-! ### C9: index bounds and the resize precondition -/

/-- C9: with at least one cell the multiplicative index is always in bounds,
so the unchecked cell accesses of `probe`/`insert`/`prefetch` are safe; on
the never-resized default table (zero cells) the access is out of bounds,
and `resize` produces a nonempty cell vector exactly when `megabytes ≥ 1`. -/
theorem tt_index_safety (t : TT) (key : Nat) (hkey : key < 2 ^ 64) :
    (1 ≤ t.cells.length → ttIndex t key < t.cells.length)
    ∧ (t.cells.length = 0 → t.cells.get? (ttIndex t key) = Option.none)
    ∧ ttDefault.cells.length = 0
    ∧ (∀ m : Nat, 1 ≤ (t.resize m).cells.length ↔ 1 ≤ m) := by
  refine ⟨fun h => ttIndex_lt hkey h, fun h => ?_, rfl, fun m => ?_⟩
  · have hnil : t.cells = [] := List.length_eq_zero.mp h
    rw [hnil]
    rfl
  · simp only [TT.resize, resizeLen, MEGABYTE, CELL_SIZE, List.length_replicate]
    omega

/-- Concrete instance of C9 at key 5 on a three-cell table. -/
theorem tt_index_safety_witness :
    (5 : Nat) < 2 ^ 64
    ∧ ((1 ≤ (zeroTT 3).cells.length → ttIndex (zeroTT 3) 5 < (zeroTT 3).cells.length)
      ∧ ((zeroTT 3).cells.length = 0 →
          (zeroTT 3).cells.get? (ttIndex (zeroTT 3) 5) = Option.none)
      ∧ ttDefault.cells.length = 0
      ∧ (∀ m : Nat, 1 ≤ ((zeroTT 3).resize m).cells.length ↔ 1 ≤ m)) :=
  ⟨by norm_num, tt_index_safety (zeroTT 3) 5 (by norm_num)⟩

/-! ## Killer moves (src/laura_engine/src/tables.rs)

Moves are the packed 16-bit values of `laura_core::Move`; the table is the
`[[Option<Move>; KILLER_SLOTS]; MAX_PLY]` array.  The Rust indexing panics
out of range; the model's `getD`/`set` are no-ops there, and every claim
constrains `ply` to the array bounds. -/

structure KillerMoves where
  table : List (Option Nat × Option Nat)
  deriving DecidableEq, Repr

/-- `KillerMoves::default()`: all slots empty. -/
def killerDefault : KillerMoves := ⟨List.replicate MAX_PLY (Option.none, Option.none)⟩

/-- `KillerMoves::get`. -/
def KillerMoves.get (k : KillerMoves) (ply : Nat) : Option Nat × Option Nat :=
  k.table.getD ply (Option.none, Option.none)

/-- `KillerMoves::store`: insert at slot 0 only when different from the
current slot 0, shifting the old slot 0 into slot 1. -/
def KillerMoves.store (k : KillerMoves) (ply : Nat) (mv : Nat) : KillerMoves :=
  if (k.table.getD ply (Option.none, Option.none)).1 ≠ some mv then
    ⟨k.table.set ply (some mv, (k.table.getD ply (Option.none, Option.none)).1)⟩
  else k

lemma killer_store_length (k : KillerMoves) (ply mv : Nat) :
    (k.store ply mv).table.length = k.table.length := by
  unfold KillerMoves.store
  split
  · simp
  · rfl

lemma killer_getD_set {l : List (Option Nat × Option Nat)} {i : Nat}
    (v : Option Nat × Option Nat) (h : i < l.length) :
    (l.set i v).getD i (Option.none, Option.none) = v := by
  rw [List.getD_eq_getElem?_getD, List.getElem?_set_self', List.getElem?_eq_getElem h]
  rfl

/-- Storing the move already in slot 0 is a no-op. -/
lemma killer_store_noop (k : KillerMoves) {ply : Nat} {m : Nat}
    (h : (k.get ply).1 = some m) : k.store ply m = k := by
  have h2 : (k.table.getD ply (Option.none, Option.none)).1 = some m := h
  unfold KillerMoves.store
  rw [if_neg (not_not_intro h2)]

/-- After `store`, slot 0 holds the move and slot 1 holds the previous slot 0
unless it already was that move. -/
lemma killer_get_store (k : KillerMoves) {ply : Nat} (mv : Nat)
    (h : ply < k.table.length) :
    (k.store ply mv).get ply
      = (some mv, if (k.get ply).1 = some mv then (k.get ply).2 else (k.get ply).1) := by
  by_cases hc : (k.get ply).1 = some mv
  · rw [if_pos hc, killer_store_noop k hc, ← hc]
  · rw [if_neg hc]
    have hc2 : (k.table.getD ply (Option.none, Option.none)).1 ≠ some mv := hc
    have hs : k.store ply mv
        = ⟨k.table.set ply (some mv, (k.table.getD ply (Option.none, Option.none)).1)⟩ := by
      unfold KillerMoves.store
      rw [if_pos hc2]
    rw [hs]
    exact killer_getD_set _ h

/-- C6: `store(ply, m)` writes slot 0 only when `m` differs from the current
slot 0 (shifting the old slot 0 into slot 1); repeated stores of the same
move are no-ops; and two stores of distinct moves leave `get` returning them
in LRU order, most recent first. -/
theorem killer_store_properties (k : KillerMoves) (ply : Nat) (m m1 m2 : Nat)
    (hply : ply < k.table.length) (hne : m1 ≠ m2) :
    ((k.get ply).1 = some m → k.store ply m = k)
    ∧ ((k.get ply).1 ≠ some m →
        (k.store ply m).get ply = (some m, (k.get ply).1))
    ∧ (k.store ply m).store ply m = k.store ply m
    ∧ ((k.store ply m1).store ply m2).get ply = (some m2, some m1) := by
  refine ⟨fun h => killer_store_noop k h, ?_, ?_, ?_⟩
  · intro h
    rw [killer_get_store k m hply, if_neg h]
  · have h1 : ((k.store ply m).get ply).1 = some m := by
      rw [killer_get_store k m hply]
    exact killer_store_noop _ h1
  · have h1 : ((k.store ply m1).get ply).1 = some m1 := by
      rw [killer_get_store k m1 hply]
    have hlen1 : ply < (k.store ply m1).table.length := by
      rw [killer_store_length]; exact hply
    rw [killer_get_store (k.store ply m1) m2 hlen1, h1,
      if_neg (fun h => hne (Option.some.inj h))]

/-- Concrete instance of C6 at ply 0 on the empty killer table. -/
theorem killer_store_properties_witness :
    (0 < killerDefault.table.length ∧ (1 : Nat) ≠ 2)
    ∧ (((killerDefault.get 0).1 = some 3 → killerDefault.store 0 3 = killerDefault)
      ∧ ((killerDefault.get 0).1 ≠ some 3 →
          (killerDefault.store 0 3).get 0 = (some 3, (killerDefault.get 0).1))
      ∧ (killerDefault.store 0 3).store 0 3 = killerDefault.store 0 3
      ∧ ((killerDefault.store 0 1).store 0 2).get 0 = (some 2, some 1)) :=
  ⟨⟨by norm_num [killerDefault, MAX_PLY], by norm_num⟩,
    killer_store_properties killerDefault 0 3 1 2
      (by norm_num [killerDefault, MAX_PLY]) (by norm_num)⟩

/-! ## Principal variation (src/laura_engine/src/search.rs)

`moves` models the `[Move; MAX_PLY]` array (a list of length `MAX_PLY` in
every reachable state) and `len` the current length.  The slice assignment
`self.moves[1..=old.len].copy_from_slice(old.as_slice())` panics when
`old.len + 1` exceeds the array length; `push_line` therefore returns
`Option`, with `Option.none` for the panic. -/

structure PrincipalVariation where
  moves : List Nat
  len : Nat
  deriving DecidableEq, Repr

/-- `PrincipalVariation::default()`. -/
def pvDefault : PrincipalVariation := ⟨List.replicate MAX_PLY 0, 0⟩

/-- `PrincipalVariation::push`. -/
def PrincipalVariation.push (pv : PrincipalVariation) (mv : Nat) : PrincipalVariation :=
  if pv.len < MAX_PLY then ⟨pv.moves.set pv.len mv, pv.len + 1⟩ else pv

/-- `dst[start..start + src.length] = src`: the slice assignment, valid when
`start + src.length ≤ dst.length`. -/
def listCopySeg (dst : List Nat) (start : Nat) (src : List Nat) : List Nat :=
  dst.take start ++ src ++ dst.drop (start + src.length)

/-- `PrincipalVariation::push_line`: clear, push the move, set the length,
then copy the child PV into positions `1..=old.len`.  The guard captures the
two indexing panics of the source (`self.moves[1..=old.len]` and
`old.as_slice()`). -/
def PrincipalVariation.push_line (pv : PrincipalVariation) (mv : Nat)
    (old : PrincipalVariation) : Option PrincipalVariation :=
  let s0 : PrincipalVariation := { pv with len := 0 }
  let s1 := s0.push mv
  let s2 : PrincipalVariation := { s1 with len := old.len + 1 }
  if old.len + 1 ≤ s2.moves.length ∧ old.len ≤ old.moves.length then
    some { s2 with moves := listCopySeg s2.moves 1 (old.moves.take old.len) }
  else Option.none

lemma listCopySeg_get_left {dst src : List Nat} (h : 1 ≤ dst.length) :
    (listCopySeg dst 1 src).get? 0 = dst.get? 0 := by
  unfold listCopySeg
  have htake : (dst.take 1).length = 1 := by
    simp
    omega
  rw [List.get?_eq_getElem?, List.get?_eq_getElem?,
    List.getElem?_append_left
      (show (0 : Nat) < (dst.take 1 ++ src).length by rw [List.length_append, htake]; omega),
    List.getElem?_append_left (show (0 : Nat) < (dst.take 1).length by rw [htake]; omega),
    List.getElem?_take, if_pos (by norm_num : (0 : Nat) < 1)]

lemma listCopySeg_get_mid {dst src : List Nat} {i : Nat}
    (hd : 1 ≤ dst.length) (h1 : 1 ≤ i) (h2 : i < 1 + src.length) :
    (listCopySeg dst 1 src).get? i = src.get? (i - 1) := by
  unfold listCopySeg
  have htake : (dst.take 1).length = 1 := by
    simp
    omega
  rw [List.get?_eq_getElem?, List.get?_eq_getElem?,
    List.getElem?_append_left
      (show i < (dst.take 1 ++ src).length by rw [List.length_append, htake]; omega),
    List.getElem?_append_right (by rw [htake]; omega), htake]

/-- C7 (amended): for a child PV whose length is strictly less than the
capacity `MAX_PLY`, `push_line(m, child)` sets element 0 to `m`, copies the
child moves into positions `1..=child.len`, and leaves length
`child.len + 1`; at `child.len = MAX_PLY` the slice indexing panics instead.
-/
theorem pv_push_line_spec (pv old : PrincipalVariation) (mv : Nat)
    (hpv : pv.moves.length = MAX_PLY) (hold : old.moves.length = MAX_PLY)
    (hlen : old.len < MAX_PLY) :
    ∃ res, pv.push_line mv old = some res
      ∧ res.len = old.len + 1
      ∧ res.moves.get? 0 = some mv
      ∧ (∀ i, 1 ≤ i → i ≤ old.len → res.moves.get? i = old.moves.get? (i - 1)) := by
  have h0 : (0 : Nat) < MAX_PLY := by norm_num [MAX_PLY]
  unfold MAX_PLY at hpv hold hlen
  simp only [PrincipalVariation.push_line, PrincipalVariation.push, if_pos h0]
  have hslen : (pv.moves.set 0 mv).length = 128 := by
    rw [List.length_set]
    exact hpv
  rw [if_pos (show old.len + 1 ≤ (pv.moves.set 0 mv).length ∧ old.len ≤ old.moves.length by
    refine ⟨by rw [hslen]; omega, by rw [hold]; omega⟩)]
  refine ⟨_, rfl, rfl, ?_, ?_⟩
  · rw [listCopySeg_get_left (by rw [hslen]; omega)]
    rw [List.get?_eq_getElem?, List.getElem?_set_self',
      List.getElem?_eq_getElem (show 0 < pv.moves.length by rw [hpv]; omega)]
    rfl
  · intro i hi1 hi2
    have hts : (old.moves.take old.len).length = old.len := by
      rw [List.length_take]
      omega
    rw [listCopySeg_get_mid (by rw [hslen]; omega) hi1 (by omega)]
    rw [List.get?_eq_getElem?, List.get?_eq_getElem?, List.getElem?_take,
      if_pos (by omega : i - 1 < old.len)]

/-- Counterexample to C7 as stated: with a child PV already at the capacity
(`len = MAX_PLY = 128`), `push_line` panics (the slice `moves[1..=128]` is
out of bounds) instead of producing a PV of length 129. -/
theorem pv_push_line_counterexample :
    pvDefault.push_line 5 ⟨List.replicate 128 0, 128⟩ = Option.none := by
  have h0 : (0 : Nat) < MAX_PLY := by norm_num [MAX_PLY]
  simp only [PrincipalVariation.push_line, PrincipalVariation.push, pvDefault, if_pos h0]
  rw [if_neg]
  intro hcon
  have h := hcon.1
  rw [List.length_set, List.length_replicate] at h
  norm_num [MAX_PLY] at h

/-- Concrete instance of the amended C7: pushing onto a two-move child. -/
theorem pv_push_line_spec_witness :
    pvDefault.moves.length = MAX_PLY
    ∧ (⟨List.replicate MAX_PLY 9, 2⟩ : PrincipalVariation).moves.length = MAX_PLY
    ∧ (2 : Nat) < MAX_PLY
    ∧ (∃ res, pvDefault.push_line 5 ⟨List.replicate MAX_PLY 9, 2⟩ = some res
        ∧ res.len = 2 + 1
        ∧ res.moves.get? 0 = some 5
        ∧ (∀ i, 1 ≤ i → i ≤ 2 →
            res.moves.get? i
              = (⟨List.replicate MAX_PLY 9, 2⟩ : PrincipalVariation).moves.get? (i - 1))) :=
  ⟨by norm_num [pvDefault, MAX_PLY], by norm_num [MAX_PLY], by norm_num [MAX_PLY],
    pv_push_line_spec pvDefault ⟨List.replicate MAX_PLY 9, 2⟩ 5
      (by norm_num [pvDefault, MAX_PLY]) (by norm_num [MAX_PLY]) (by norm_num [MAX_PLY])⟩

/-! ## Time management (src/laura_engine/src/timer.rs)

`Instant`/`Duration` are wall-clock values; the polls receive the current
elapsed milliseconds as an explicit argument (`self.elapsed()` in the
source).  `stop` models the shared `AtomicBool`, `nodes` the shared
`AtomicU64`; all `u64` arithmetic wraps mod `2^64` as in release Rust. -/

inductive TimeControl where
  | depth (d : Nat)
  | moveTime (t : Nat)
  | dynamicTime (wtime btime : Nat) (winc binc : Option Nat) (movestogo : Option Nat)
  | nodes (n : Nat)
  | infinite
  deriving DecidableEq, Repr

structure TimeManager where
  time_control : TimeControl
  soft_limit : Nat
  hard_limit : Nat
  stop : Bool
  nodes : Nat
  buffer : Nat
  deriving DecidableEq, Repr

/-- Wrapping `u64` subtraction (release-mode Rust semantics). -/
def u64sub (a b : Nat) : Nat := (a + 2 ^ 64 - b % 2 ^ 64) % 2 ^ 64

/-- `TimeManager::stop_soft`: early-out on the stop flag, otherwise compare
the elapsed time (or the shared node count) against the soft limit and set
the flag sticky on expiry. -/
def TimeManager.stop_soft (tm : TimeManager) (elapsed : Nat) : Bool × TimeManager :=
  if tm.stop then (true, tm)
  else
    let stop : Bool :=
      match tm.time_control with
      | .moveTime _ | .dynamicTime .. => tm.soft_limit ≤ elapsed
      | .nodes controlNodes => controlNodes ≤ tm.nodes
      | _ => false
    if stop then (stop, { tm with stop := true }) else (stop, tm)

/-- `TimeManager::stop_hard`: early-out on the stop flag; fold node batches
larger than 1024 into the shared counter; then compare against the hard
limit and set the flag sticky on expiry. -/
def TimeManager.stop_hard (tm : TimeManager) (elapsed : Nat) (threadNodes : Nat) :
    Bool × TimeManager :=
  if tm.stop then (true, tm)
  else
    let searched := u64sub threadNodes tm.buffer
    let tm1 :=
      if searched > 1024 then
        { tm with nodes := (tm.nodes + searched) % 2 ^ 64, buffer := threadNodes }
      else tm
    let stop : Bool :=
      match tm1.time_control with
      | .depth _ | .infinite => tm1.stop
      | .moveTime t => t ≤ elapsed
      | .dynamicTime .. => tm1.hard_limit ≤ elapsed
      | .nodes controlNodes => controlNodes ≤ tm1.nodes
    if stop then (stop, { tm1 with stop := true }) else (stop, tm1)

/-- `TimeManager::stopped`. -/
def TimeManager.stopped (tm : TimeManager) : Bool := tm.stop

/-- `TimeManager::not_search`: a timed control whose hard limit is zero. -/
def TimeManager.not_search (tm : TimeManager) : Bool :=
  match tm.time_control with
  | .moveTime _ | .dynamicTime .. => tm.hard_limit == 0
  | _ => false

/-- `fn calculate_time(remaining, increment, movestogo)`; the division by
`movestogo` panics when it is `Some(0)` (hence `Option`), and the increment
product wraps in `u64`. -/
def calculate_time (remaining increment : Nat) (movestogo : Option Nat) :
    Option (Nat × Nat) :=
  let max_time := remaining - MOVE_OVERHEAD
  match movestogo with
  | some 0 => Option.none
  | some k => limits (max_time / k)
  | Option.none =>
      limits (max_time / DEFAULT_MOVESTOGO + increment * INCREMENT_TIME_BASE % 2 ^ 64 / 100)
where
  limits (limit_time : Nat) : Option (Nat × Nat) :=
    let hard_time := max limit_time MINIMUM_TIME
    let soft_time := max
      (min hard_time (remaining - MOVE_OVERHEAD) * OPTIMAL_TIME_BASE % 2 ^ 64 / 100)
      MINIMUM_TIME
    some (soft_time, hard_time)

/-- A poll of either kind, with the elapsed wall-clock time it observes. -/
inductive Poll where
  | soft (elapsed : Nat)
  | hard (elapsed : Nat) (threadNodes : Nat)
  deriving DecidableEq, Repr

def applyPoll (tm : TimeManager) : Poll → Bool × TimeManager
  | .soft e => tm.stop_soft e
  | .hard e n => tm.stop_hard e n

def applyPolls (tm : TimeManager) : List Poll → TimeManager
  | [] => tm
  | p :: ps => applyPolls (applyPoll tm p).2 ps

lemma stop_soft_of_stop {tm : TimeManager} (h : tm.stop = true) (e : Nat) :
    tm.stop_soft e = (true, tm) := by
  unfold TimeManager.stop_soft
  rw [if_pos h]

lemma stop_hard_of_stop {tm : TimeManager} (h : tm.stop = true) (e n : Nat) :
    tm.stop_hard e n = (true, tm) := by
  unfold TimeManager.stop_hard
  rw [if_pos h]

/-- C8: stop is sticky.  Once the shared stop flag is true, every later
`stop_soft` and `stop_hard` poll returns true and leaves the flag true, and
no sequence of the two polls ever resets the flag to false. -/
theorem stop_flag_sticky (tm : TimeManager) (hstop : tm.stop = true) :
    (∀ e, (tm.stop_soft e).1 = true ∧ ((tm.stop_soft e).2).stop = true)
    ∧ (∀ e n, (tm.stop_hard e n).1 = true ∧ ((tm.stop_hard e n).2).stop = true)
    ∧ (∀ ps : List Poll, (applyPolls tm ps).stop = true) := by
  refine ⟨fun e => ?_, fun e n => ?_, fun ps => ?_⟩
  · rw [stop_soft_of_stop hstop]
    exact ⟨rfl, hstop⟩
  · rw [stop_hard_of_stop hstop]
    exact ⟨rfl, hstop⟩
  · induction ps generalizing tm with
    | nil => exact hstop
    | cons p ps ih =>
      unfold applyPolls
      cases p with
      | soft e =>
        simp only [applyPoll]
        rw [stop_soft_of_stop hstop e]
        exact ih tm hstop
      | hard e n =>
        simp only [applyPoll]
        rw [stop_hard_of_stop hstop e n]
        exact ih tm hstop

/-- Concrete instance of C8: a stopped dynamic-time manager stays stopped. -/
theorem stop_flag_sticky_witness :
    (⟨TimeControl.dynamicTime 1000 1000 Option.none Option.none Option.none,
        30, 40, true, 0, 0⟩ : TimeManager).stop = true
    ∧ ((∀ e, ((⟨TimeControl.dynamicTime 1000 1000 Option.none Option.none Option.none,
          30, 40, true, 0, 0⟩ : TimeManager).stop_soft e).1 = true
        ∧ (((⟨TimeControl.dynamicTime 1000 1000 Option.none Option.none Option.none,
          30, 40, true, 0, 0⟩ : TimeManager).stop_soft e).2).stop = true)
      ∧ (∀ e n, ((⟨TimeControl.dynamicTime 1000 1000 Option.none Option.none Option.none,
          30, 40, true, 0, 0⟩ : TimeManager).stop_hard e n).1 = true
        ∧ (((⟨TimeControl.dynamicTime 1000 1000 Option.none Option.none Option.none,
          30, 40, true, 0, 0⟩ : TimeManager).stop_hard e n).2).stop = true)
      ∧ (∀ ps : List Poll,
          (applyPolls (⟨TimeControl.dynamicTime 1000 1000 Option.none Option.none Option.none,
            30, 40, true, 0, 0⟩ : TimeManager) ps).stop = true)) :=
  ⟨rfl, stop_flag_sticky _ rfl⟩

/-! ## Threads and positions (src/laura_engine/src/thread.rs, position.rs)

The board type is a collaborator and stays abstract; `game` models the undo
`Vec<Board>` with the most recent board at the head.  `usize`/`u64` counter
arithmetic wraps mod `2^64` (release Rust). -/

structure Thread where
  id : Nat
  time_manager : TimeManager
  principal_variation : PrincipalVariation
  killer : KillerMoves
  nodes : Nat
  ply : Nat
  seldepth : Nat
  score : Int
  depth : Nat
  completed : Nat
  deriving DecidableEq, Repr

/-- The `TimeManager` of `Thread::smp`: `TimeControl::Infinite`, zero
limits, cleared stop flag. -/
def tmInfinite : TimeManager := ⟨TimeControl.infinite, 0, 0, false, 0, 0⟩

/-- `Thread::new`. -/
def Thread.new (time_manager : TimeManager) (id : Nat) : Thread :=
  ⟨id, time_manager, pvDefault, killerDefault, 0, 0, 0, 0, 0, 0⟩

structure Position (B : Type) where
  board : B
  game : List B
  deriving DecidableEq, Repr

/-- `Position::push_move` (the board transition `Board::make_move` is a
collaborator passed in). -/
def Position.push_move {B : Type} (makeMove : B → Nat → B) (p : Position B) (mv : Nat)
    (t : Thread) : Position B × Thread :=
  ({ board := makeMove p.board mv, game := p.board :: p.game },
   { t with ply := (t.ply + 1) % 2 ^ 64, nodes := (t.nodes + 1) % 2 ^ 64 })

/-- `Position::push_null`. -/
def Position.push_null {B : Type} (nullMove : B → B) (p : Position B)
    (t : Thread) : Position B × Thread :=
  ({ board := nullMove p.board, game := p.board :: p.game },
   { t with ply := (t.ply + 1) % 2 ^ 64, nodes := (t.nodes + 1) % 2 ^ 64 })

/-- `Position::pop_move`: `self.game.pop().unwrap()` panics on an empty
stack (`Option.none` here); otherwise restore the top board and decrement
the thread ply (wrapping `usize` subtraction). -/
def Position.pop_move {B : Type} (p : Position B) (t : Thread) :
    Option (Position B × Thread) :=
  match p.game with
  | [] => Option.none
  | old :: rest => some ({ board := old, game := rest }, { t with ply := u64sub t.ply 1 })

/-- C10 (amended): `pop_move` requires a non-empty game stack — on an empty
stack the unwrap panics; with a non-empty stack it restores the top board,
shortens the stack by one, leaves the node count unchanged, and — provided
`ply ≥ 1` — decrements the thread's ply by one (at `ply = 0` the unsigned
decrement wraps to `2^64 - 1` instead). -/
theorem pop_move_spec {B : Type} (p : Position B) (t : Thread) :
    (p.game = [] → p.pop_move t = Option.none)
    ∧ (∀ old rest, p.game = old :: rest → 1 ≤ t.ply → t.ply < 2 ^ 64 →
        p.pop_move t
          = some ({ board := old, game := rest }, { t with ply := t.ply - 1 })) := by
  constructor
  · intro h
    obtain ⟨bd, gm⟩ := p
    dsimp only at h
    subst h
    rfl
  · intro old rest h h1 h2
    obtain ⟨bd, gm⟩ := p
    dsimp only at h
    subst h
    unfold Position.pop_move
    dsimp only
    have hs : u64sub t.ply 1 = t.ply - 1 := by
      unfold u64sub
      omega
    rw [hs]

/-- Counterexample to C10 as stated: popping with the thread at `ply = 0`
and a non-empty stack leaves `ply = 2^64 - 1` (the wrapped `usize`
decrement), not the claimed decrement by one. -/
theorem pop_move_counterexample :
    Position.pop_move (B := Nat) ⟨7, [5]⟩ (Thread.new tmInfinite 0)
      = some (⟨5, []⟩, { Thread.new tmInfinite 0 with ply := 2 ^ 64 - 1 })
    ∧ ((2 ^ 64 - 1 : Int) ≠ ((Thread.new tmInfinite 0).ply : Int) - 1) := by
  constructor
  · rfl
  · norm_num [Thread.new]

/-- Concrete instance of the amended C10 at `ply = 3`. -/
theorem pop_move_spec_witness :
    Position.pop_move (B := Nat) ⟨7, [5]⟩ { Thread.new tmInfinite 0 with ply := 3 }
      = some (⟨5, []⟩,
          { { Thread.new tmInfinite 0 with ply := 3 } with ply := 3 - 1 }) :=
  (pop_move_spec (B := Nat) ⟨7, [5]⟩ { Thread.new tmInfinite 0 with ply := 3 }).2
    5 [] rfl (by norm_num) (by norm_num)

/-! ## Search (src/laura_engine/src/search.rs)

The board, move generation, the evaluator and the move picker are
collaborators; they are abstracted as an oracle.  The wall clock read by the
time-manager polls is abstracted as a function of the cumulative node count
(`clock`).  The Rust recursion is unbounded (it terminates through the
`ply >= MAX_PLY` gate and the exhaustion of tactical moves); the embedding
adds explicit fuel, returning 0 when it runs out. -/

/-- The compile-time `NodeType` parameter (`RootNode`/`PvNode`/`NonPv`). -/
structure NodeKind where
  pvNode : Bool
  rootNode : Bool
  deriving DecidableEq, Repr

def RootNode : NodeKind := ⟨true, true⟩
def PvNode : NodeKind := ⟨true, false⟩
def NonPv : NodeKind := ⟨false, false⟩

/-- Collaborator oracle (laura_core board/move generation, the evaluator,
movepicker.rs, and the wall clock). `pickerMoves b tt killers skipQuiets`
is the move sequence `MovePicker::next` yields. -/
structure GameOracle (B : Type) where
  makeMove : B → Nat → B
  nullMove : B → B
  inCheck : B → Bool
  white : B → Bool
  key : B → Nat
  evaluate : B → Int
  legalMoves : B → List Nat
  pickerMoves : B → Option Nat → (Option Nat × Option Nat) → Bool → List Nat
  clock : Nat → Nat

/-- `fn mate_in(ply: usize) -> i32`. -/
def mate_in (ply : Nat) : Int := MATE - (ply : Int)

/-- `fn mated_in(ply: usize) -> i32`. -/
def mated_in (ply : Nat) : Int := -MATE + (ply : Int)

/-- `Move::is_quiet`: `self.flag() == 0` with `flag = self.0 >> 12`. -/
def isQuiet (mv : Nat) : Bool := mv >>> 12 == 0

/-- `EntryHit::legal_move`: a non-null stored move that is legal in the
current position. -/
def EntryHit.legal_move {B : Type} (O : GameOracle B) (hit : EntryHit) (b : B) : Option Nat :=
  if hit.mv ≠ 0 ∧ (O.legalMoves b).contains hit.mv then some hit.mv else Option.none

/-- The mutable state a search call threads: the position, the per-thread
state and the shared table. -/
structure SearchState (B : Type) where
  pos : Position B
  thread : Thread
  tt : TT

/-- The accumulator of the main move loop (`while let Some(mv) = picker.next`).
`done` records a `break` (beta cutoff), `halted` a function-level
`return 0` (stop detected after popping). -/
structure LoopAcc (B : Type) where
  st : SearchState B
  nodePv : PrincipalVariation
  childPv : PrincipalVariation
  alpha : Int
  bestScore : Int
  bestMove : Nat
  moveCount : Nat
  done : Bool
  halted : Bool

/-- `Position::quiescence` (fuel-indexed). -/
def quiescence {B : Type} (O : GameOracle B) :
    Nat → NodeKind → SearchState B → Int → Int → PrincipalVariation →
      Int × SearchState B × PrincipalVariation
  | 0, _, st, _, _, nodePv => (0, st, nodePv)
  | fuel + 1, node, st, alpha, beta, nodePv =>
    let childPv := pvDefault
    let nodePv := { nodePv with len := 0 }
    -- Hard Limit Time Control
    let sh := st.thread.time_manager.stop_hard (O.clock st.thread.nodes) st.thread.nodes
    let st := { st with thread := { st.thread with time_manager := sh.2 } }
    if sh.1 then (0, st, nodePv)
    else
      let in_check := O.inCheck st.pos.board
      -- Update thread selective depth
      let st :=
        if st.thread.ply > st.thread.seldepth then
          { st with thread := { st.thread with seldepth := st.thread.ply } }
        else st
      -- Probe the Transposition Table
      let tt_entry := st.tt.probe (O.key st.pos.board) st.thread.ply
      let rest : Option Nat → Int × SearchState B × PrincipalVariation := fun tt_move =>
        let alpha_orig := alpha
        let stand_pat := O.evaluate st.pos.board
        -- Standing Pat Prunning (fail-soft beta cutoff)
        if beta ≤ stand_pat then (stand_pat, st, nodePv)
        else
          -- Improve alpha
          let alpha := if stand_pat > alpha then stand_pat else alpha
          let moves := O.pickerMoves st.pos.board tt_move (Option.none, Option.none) true
          let step : LoopAcc B → Nat → LoopAcc B := fun acc mv =>
            if acc.done || acc.halted then acc
            else
              let pt := acc.st.pos.push_move O.makeMove mv acc.st.thread
              let stP : SearchState B := { acc.st with pos := pt.1, thread := pt.2 }
              let moveCount := acc.moveCount + 1
              let rec1 := quiescence O fuel node stP (-beta) (-acc.alpha) acc.childPv
              let score := -rec1.1
              let st2 := rec1.2.1
              let childPv2 := rec1.2.2
              let pp := (st2.pos.pop_move st2.thread).getD (st2.pos, st2.thread)
              let st3 : SearchState B := { st2 with pos := pp.1, thread := pp.2 }
              if st3.thread.time_manager.stopped then
                { acc with
                    st := st3
                    childPv := childPv2
                    moveCount := moveCount
                    halted := true }
              else if score > acc.bestScore then
                let upd :=
                  if score > acc.alpha then
                    (score, mv,
                      if node.pvNode then (acc.nodePv.push_line mv childPv2).getD acc.nodePv
                      else acc.nodePv)
                  else (acc.alpha, acc.bestMove, acc.nodePv)
                { st := st3
                  nodePv := upd.2.2
                  childPv := childPv2
                  alpha := upd.1
                  bestScore := score
                  bestMove := upd.2.1
                  moveCount := moveCount
                  done := beta ≤ score
                  halted := false }
              else
                { acc with st := st3, childPv := childPv2, moveCount := moveCount }
          let out := moves.foldl step
            ⟨st, nodePv, childPv, alpha, stand_pat, 0, 0, false, false⟩
          if out.halted then (0, out.st, out.nodePv)
          else if out.moveCount = 0 ∧ in_check then
            (mated_in out.st.thread.ply, out.st, out.nodePv)
          else
            let bound :=
              if beta ≤ out.bestScore then BoundType.lowerBound
              else if out.bestScore > alpha_orig then BoundType.exact
              else BoundType.upperBound
            let tt2 := out.st.tt.insert (O.key out.st.pos.board) out.bestMove
              out.bestScore 0 0 bound node.pvNode out.st.thread.ply
            (out.bestScore, { out.st with tt := tt2 }, out.nodePv)
      match tt_entry with
      | some e =>
        if node.pvNode = false
            ∧ (e.bound = BoundType.exact
              ∨ (e.bound = BoundType.lowerBound ∧ beta ≤ e.score)
              ∨ (e.bound = BoundType.upperBound ∧ e.score ≤ alpha)) then
          (e.score, st, nodePv)
        else rest (e.legal_move O st.pos.board)
      | Option.none => rest Option.none

/-- `Position::alphabeta` (fail-soft PVS, fuel-indexed). -/
def alphabeta {B : Type} (O : GameOracle B) :
    Nat → NodeKind → SearchState B → Nat → Int → Int → PrincipalVariation →
      Int × SearchState B × PrincipalVariation
  | 0, _, st, _, _, _, nodePv => (0, st, nodePv)
  | fuel + 1, node, st, depth, alpha, beta, nodePv =>
    let childPv := pvDefault
    -- Hard Limit Time Control
    let sh := st.thread.time_manager.stop_hard (O.clock st.thread.nodes) st.thread.nodes
    let st := { st with thread := { st.thread with time_manager := sh.2 } }
    if sh.1 then (0, st, nodePv)
    else
      -- Update thread selective depth
      let st := { st with thread := { st.thread with
        seldepth := if node.rootNode then 0 else max st.thread.seldepth st.thread.ply } }
      -- 1. Check Extension
      let in_check := O.inCheck st.pos.board
      let depth := if in_check ∧ depth < MAX_PLY then depth + 1 else depth
      -- 2. Quiescence Search
      if depth = 0 ∨ st.thread.ply ≥ MAX_PLY then
        if node.pvNode then quiescence O fuel PvNode st alpha beta nodePv
        else quiescence O fuel NonPv st alpha beta nodePv
      else
        let nodePv := { nodePv with len := 0 }
        -- Limit the depth
        let depth := min depth (MAX_PLY - 1)
        -- 3. Mate Distance Pruning
        let alpha := if node.rootNode then alpha else max alpha (mated_in st.thread.ply)
        let beta := if node.rootNode then beta else min beta (mate_in (st.thread.ply + 1))
        if node.rootNode = false ∧ beta ≤ alpha then (alpha, st, nodePv)
        else
          -- 4. Probe the Transposition Table
          let tt_entry := st.tt.probe (O.key st.pos.board) st.thread.ply
          let rest : Option EntryHit → Int × SearchState B × PrincipalVariation :=
            fun tt_entry =>
            let tt_move : Option Nat :=
              match tt_entry with
              | some e => e.legal_move O st.pos.board
              | Option.none => Option.none
            -- 5. Internal Iterative Reduction
            let depth :=
              if node.pvNode ∧ 4 ≤ depth ∧ tt_entry = Option.none then depth - 1 else depth
            let alpha_orig := alpha
            let killers := st.thread.killer.get st.thread.ply
            let moves := O.pickerMoves st.pos.board tt_move killers false
            -- Main Alpha-Beta Loop
            let step : LoopAcc B → Nat → LoopAcc B := fun acc mv =>
              if acc.done || acc.halted then acc
              else
                let pt := acc.st.pos.push_move O.makeMove mv acc.st.thread
                let stP : SearchState B := { acc.st with pos := pt.1, thread := pt.2 }
                let moveCount := acc.moveCount + 1
                -- Principal Variation Search
                let pvs : Int × SearchState B × PrincipalVariation :=
                  if moveCount = 1 then
                    let child := if node.pvNode then PvNode else NonPv
                    let r := alphabeta O fuel child stP (depth - 1) (-beta) (-acc.alpha)
                      acc.childPv
                    (-r.1, r.2.1, r.2.2)
                  else
                    let r := alphabeta O fuel NonPv stP (depth - 1) (-acc.alpha - 1)
                      (-acc.alpha) acc.childPv
                    let score := -r.1
                    if score > acc.alpha ∧ node.pvNode then
                      let r2 := alphabeta O fuel PvNode r.2.1 (depth - 1) (-beta)
                        (-acc.alpha) r.2.2
                      (-r2.1, r2.2.1, r2.2.2)
                    else (score, r.2.1, r.2.2)
                let score := pvs.1
                let st2 := pvs.2.1
                let childPv2 := pvs.2.2
                let pp := (st2.pos.pop_move st2.thread).getD (st2.pos, st2.thread)
                let st3 : SearchState B := { st2 with pos := pp.1, thread := pp.2 }
                if st3.thread.time_manager.stopped then
                  { acc with
                      st := st3
                      childPv := childPv2
                      moveCount := moveCount
                      halted := true }
                else if score > acc.bestScore then
                  let upd :=
                    if score > acc.alpha then
                      (score, mv,
                        if node.pvNode then (acc.nodePv.push_line mv childPv2).getD acc.nodePv
                        else acc.nodePv)
                    else (acc.alpha, acc.bestMove, acc.nodePv)
                  if beta ≤ score then
                    -- Beta Pruning: store the killer for a quiet move, then break
                    let st4 : SearchState B :=
                      if isQuiet mv then
                        { st3 with thread := { st3.thread with
                            killer := st3.thread.killer.store st3.thread.ply mv } }
                      else st3
                    { st := st4
                      nodePv := upd.2.2
                      childPv := childPv2
                      alpha := upd.1
                      bestScore := score
                      bestMove := upd.2.1
                      moveCount := moveCount
                      done := true
                      halted := false }
                  else
                    { st := st3
                      nodePv := upd.2.2
                      childPv := childPv2
                      alpha := upd.1
                      bestScore := score
                      bestMove := upd.2.1
                      moveCount := moveCount
                      done := false
                      halted := false }
                else
                  { acc with st := st3, childPv := childPv2, moveCount := moveCount }
            let out := moves.foldl step
              ⟨st, nodePv, childPv, alpha, -INFINITY, 0, 0, false, false⟩
            if out.halted then (0, out.st, out.nodePv)
            else if out.moveCount = 0 then
              (if in_check then mated_in out.st.thread.ply else 0, out.st, out.nodePv)
            else
              let bound :=
                if beta ≤ out.bestScore then BoundType.lowerBound
                else if out.bestScore > alpha_orig then BoundType.exact
                else BoundType.upperBound
              let tt2 := out.st.tt.insert (O.key out.st.pos.board) out.bestMove
                out.bestScore 0 depth bound node.pvNode out.st.thread.ply
              (out.bestScore, { out.st with tt := tt2 }, out.nodePv)
          match tt_entry with
          | some e =>
            if depth ≤ e.depth ∧ node.pvNode = false
                ∧ (e.bound = BoundType.exact
                  ∨ (e.bound = BoundType.lowerBound ∧ beta ≤ e.score)
                  ∨ (e.bound = BoundType.upperBound ∧ e.score ≤ alpha)) then
              (e.score, st, nodePv)
            else rest (some e)
          | Option.none => rest Option.none

/-- C4: when the move loop yields no legal move and no earlier return was
taken (no stop, no mate-distance or TT cutoff, depth after check extension
at least 1, ply below MAX_PLY), `alphabeta` returns `-MATE + ply` when the
side to move is in check and 0 (stalemate) otherwise, at every node kind. -/
theorem alphabeta_no_legal_moves {B : Type} (O : GameOracle B) (fuel : Nat)
    (node : NodeKind) (st : SearchState B) (depth : Nat) (alpha beta : Int)
    (nodePv : PrincipalVariation)
    (hstop : (st.thread.time_manager.stop_hard (O.clock st.thread.nodes)
        st.thread.nodes).1 = false)
    (hdepth : 1 ≤ (if O.inCheck st.pos.board = true ∧ depth < MAX_PLY
        then depth + 1 else depth))
    (hply : st.thread.ply < MAX_PLY)
    (hmdp : node.rootNode = false →
      max alpha (mated_in st.thread.ply) < min beta (mate_in (st.thread.ply + 1)))
    (htt : ∀ e, st.tt.probe (O.key st.pos.board) st.thread.ply = some e →
      ¬(min (if O.inCheck st.pos.board = true ∧ depth < MAX_PLY
              then depth + 1 else depth) (MAX_PLY - 1) ≤ e.depth
        ∧ node.pvNode = false
        ∧ (e.bound = BoundType.exact
          ∨ (e.bound = BoundType.lowerBound
              ∧ (if node.rootNode = true then beta
                  else min beta (mate_in (st.thread.ply + 1))) ≤ e.score)
          ∨ (e.bound = BoundType.upperBound
              ∧ e.score ≤ (if node.rootNode = true then alpha
                  else max alpha (mated_in st.thread.ply))))))
    (hpick : ∀ o k s, O.pickerMoves st.pos.board o k s = []) :
    (alphabeta O (fuel + 1) node st depth alpha beta nodePv).1
      = if O.inCheck st.pos.board then mated_in st.thread.ply else 0 := by
  simp only [alphabeta, hstop, Bool.false_eq_true, if_false, hpick, List.foldl]
  rw [if_neg (show ¬((if O.inCheck st.pos.board = true ∧ depth < MAX_PLY
      then depth + 1 else depth) = 0 ∨ st.thread.ply ≥ MAX_PLY) by
    push_neg
    exact ⟨by omega, by omega⟩)]
  rw [if_neg (show ¬(node.rootNode = false
      ∧ (if node.rootNode = true then beta
          else min beta (mate_in (st.thread.ply + 1)))
        ≤ (if node.rootNode = true then alpha
          else max alpha (mated_in st.thread.ply))) by
    intro hcon
    obtain ⟨h1, h2⟩ := hcon
    rw [if_neg (by rw [h1]; exact Bool.false_ne_true),
      if_neg (by rw [h1]; exact Bool.false_ne_true)] at h2
    exact absurd h2 (not_le.mpr (hmdp h1)))]
  cases hpr : st.tt.probe (O.key st.pos.board) st.thread.ply with
  | none =>
    simp only [hpick, List.foldl]
    rfl
  | some e =>
    dsimp only
    rw [if_neg (htt e hpr)]
    rfl

/-- A concrete collaborator with no legal moves anywhere and a stopped-free
clock, for instantiating the search theorems. -/
def oracleNoMoves : GameOracle Unit :=
  { makeMove := fun _ _ => ()
    nullMove := fun _ => ()
    inCheck := fun _ => false
    white := fun _ => true
    key := fun _ => 0
    evaluate := fun _ => 0
    legalMoves := fun _ => []
    pickerMoves := fun _ _ _ _ => []
    clock := fun _ => 0 }

/-- Concrete instance of C4: a root node with no legal moves and not in
check returns the stalemate score 0. -/
theorem alphabeta_no_legal_moves_witness :
    (alphabeta oracleNoMoves 1 RootNode ⟨⟨(), []⟩, Thread.new tmInfinite 0, zeroTT 1⟩
        1 (-5) 5 pvDefault).1 = 0 := by
  have h := alphabeta_no_legal_moves oracleNoMoves 0 RootNode
    ⟨⟨(), []⟩, Thread.new tmInfinite 0, zeroTT 1⟩ 1 (-5) 5 pvDefault
    (by decide) (by decide) (by decide) (by decide)
    (by
      intro e he
      have h0 : (zeroTT 1).probe 0 0 = some ⟨0, 0, 0, 0, BoundType.none, false⟩ := by
        decide
      rw [show (⟨⟨(), []⟩, Thread.new tmInfinite 0, zeroTT 1⟩ : SearchState Unit).tt.probe
          (oracleNoMoves.key (⟨⟨(), []⟩, Thread.new tmInfinite 0,
            zeroTT 1⟩ : SearchState Unit).pos.board)
          (⟨⟨(), []⟩, Thread.new tmInfinite 0, zeroTT 1⟩ : SearchState Unit).thread.ply
          = some ⟨0, 0, 0, 0, BoundType.none, false⟩ from h0] at he
      cases Option.some.inj he
      decide)
    (fun _ _ _ => rfl)
  simpa using h

/-! ## Thread pool (src/laura_engine/src/thread.rs)

`start_search` is modelled up to its early returns; the fan-out of OS
threads and the final vote are concurrency and are represented by the
`runSearch` marker.  The division by `movestogo` in `calculate_time`
panics when it is `Some(0)`, so `TimeManager::new` (and with it
`start_search`) returns `Option`. -/

/-- `TimeManager::new`: derive the soft/hard limits from the time control
and the side to move. -/
def TimeManager.new (stop : Bool) (nodes : Nat) (time_control : TimeControl)
    (white : Bool) : Option TimeManager :=
  match time_control with
  | .depth _ => some ⟨time_control, 0, 0, stop, nodes, 0⟩
  | .moveTime t =>
      some ⟨time_control, t - min MOVE_OVERHEAD t, t - min MOVE_OVERHEAD t, stop, nodes, 0⟩
  | .dynamicTime wtime btime winc binc movestogo =>
      let ri : Nat × Nat := if white then (wtime, winc.getD 0) else (btime, binc.getD 0)
      match calculate_time ri.1 ri.2 movestogo with
      | some sh => some ⟨time_control, sh.1, sh.2, stop, nodes, 0⟩
      | Option.none => Option.none
  | .nodes _ => some ⟨time_control, 0, 0, stop, nodes, 0⟩
  | .infinite => some ⟨time_control, 0, 0, stop, nodes, 0⟩

/-- Result marker for `start_search`: report no best move, return a move
immediately without searching, or enter the threaded search. -/
inductive StartAction where
  | noMove
  | immediate (mv : Nat)
  | runSearch
  deriving DecidableEq, Repr

/-- The two depth-0 info lines `start_search` can print. -/
inductive InfoLine where
  | mateZero
  | cpZero
  deriving DecidableEq, Repr

structure ThreadPool where
  main : Thread
  pool : List Thread
  threads : Nat
  stop : Bool
  nodes : Nat
  deriving DecidableEq, Repr

/-- `ThreadPool::new`. -/
def ThreadPool.new (stop : Bool) : ThreadPool :=
  ⟨Thread.new tmInfinite 0, [], 1, stop, 0⟩

/-- `ThreadPool::start_search`, modelled up to the early returns (the rest
is the threaded search, marked `runSearch`).  `Option.none` models the
panic inside `TimeManager::new`. -/
def ThreadPool.start_search {B : Type} (O : GameOracle B) (tp : ThreadPool)
    (position : Position B) (time_control : TimeControl) :
    Option (ThreadPool × Option InfoLine × StartAction) :=
  match TimeManager.new tp.stop tp.nodes time_control (O.white position.board) with
  | Option.none => Option.none
  | some tm =>
    let tp := { tp with main := { tp.main with time_manager := tm } }
    let moves := O.legalMoves position.board
    if moves.isEmpty then
      if O.inCheck position.board then some (tp, some InfoLine.mateZero, StartAction.noMove)
      else some (tp, some InfoLine.cpZero, StartAction.noMove)
    else if moves.length = 1 ∨ tp.main.time_manager.not_search then
      some (tp, Option.none, StartAction.immediate (moves.headD 0))
    else
      some (tp, Option.none, StartAction.runSearch)

/-- A collaborator with exactly one legal move (42) everywhere. -/
def oracleOneMove : GameOracle Unit :=
  { oracleNoMoves with
      legalMoves := fun _ => [42]
      pickerMoves := fun _ _ _ _ => [42] }

/-- C5 (amended): provided `TimeManager::new` does not panic (time control
is not DynamicTime with `movestogo = Some 0`): with no root legal moves
`start_search` emits the depth-0 info line (`mate 0` in check, `cp 0`
otherwise) and reports no best move; with exactly one legal move, or a time
manager reporting `not_search`, it returns the first legal move without
entering the search. -/
theorem start_search_shortcuts {B : Type} (O : GameOracle B) (tp : ThreadPool)
    (p : Position B) (tc : TimeControl) (tm : TimeManager)
    (htm : TimeManager.new tp.stop tp.nodes tc (O.white p.board) = some tm) :
    (O.legalMoves p.board = [] →
      tp.start_search O p tc
        = some ({ tp with main := { tp.main with time_manager := tm } },
            some (if O.inCheck p.board then InfoLine.mateZero else InfoLine.cpZero),
            StartAction.noMove))
    ∧ (∀ mv rest, O.legalMoves p.board = mv :: rest →
        (rest = [] ∨ tm.not_search = true) →
        tp.start_search O p tc
          = some ({ tp with main := { tp.main with time_manager := tm } },
              Option.none, StartAction.immediate mv)) := by
  constructor
  · intro hmoves
    unfold ThreadPool.start_search
    rw [htm]
    simp only [hmoves, List.isEmpty_nil, if_true]
    cases hc : O.inCheck p.board <;> simp
  · intro mv rest hmoves hshort
    unfold ThreadPool.start_search
    rw [htm]
    simp only [hmoves, List.isEmpty_cons, Bool.false_eq_true, if_false, List.headD_cons,
      List.length_cons]
    have hcond : rest.length + 1 = 1 ∨ tm.not_search = true := by
      rcases hshort with h | h
      · left
        subst h
        rfl
      · right
        exact h
    rw [if_pos hcond]

/-- Counterexample to C5 as stated: with exactly one root legal move but a
dynamic time control carrying `movestogo 0`, `TimeManager::new` divides by
zero and `start_search` panics instead of returning that move. -/
theorem start_search_counterexample :
    (ThreadPool.new false).start_search oracleOneMove ⟨(), []⟩
        (TimeControl.dynamicTime 100 100 Option.none Option.none (some 0))
      = Option.none := by
  rfl

/-- Concrete instance of the amended C5: a single legal move under an
infinite time control is returned immediately. -/
theorem start_search_shortcuts_witness :
    (ThreadPool.new false).start_search oracleOneMove ⟨(), []⟩ TimeControl.infinite
      = some ({ ThreadPool.new false with main := { (ThreadPool.new false).main with
            time_manager := ⟨TimeControl.infinite, 0, 0, false, 0, 0⟩ } },
          Option.none, StartAction.immediate 42) :=
  (start_search_shortcuts oracleOneMove (ThreadPool.new false) ⟨(), []⟩
    TimeControl.infinite ⟨TimeControl.infinite, 0, 0, false, 0, 0⟩ rfl).2
    42 [] rfl (Or.inl rfl)

end Laura